import Mathlib

/-!
Verification of `pyleco_extras/gui/DataLogger/DataLoggerViewer.pyw`.

The viewer controller's `start()` slot is embedded shallowly: Python's
insertion-ordered `dict` becomes an association list (`Dict`), sample values
become rationals, Qt widgets and signal emission become fields of an explicit
`State` record (signal emissions are logged in an `emitted` trace), and the
external file loader's successful result is an input (`LoadResult`).
-/

set_option autoImplicit false

namespace DataLoggerViewer

/-- Python `dict` with string keys, modelled as an insertion-ordered
association list. -/
abbrev Dict (α : Type) := List (String × α)

/-- `m[key]` lookup: the value stored at `key`, if present. -/
def dictLookup {α : Type} : Dict α → String → Option α
  | [], _ => none
  | (k, v) :: rest, key => if k = key then some v else dictLookup rest key

/-- `m.get(key, d)`: lookup with a default. -/
def dictGetD {α : Type} (m : Dict α) (key : String) (d : α) : α :=
  (dictLookup m key).getD d

/-- `list(m)` / `m.keys()`: the keys in insertion order. -/
def dictKeys {α : Type} (m : Dict α) : List String :=
  m.map Prod.fst

/-- `m[key] = v`: update the value in place if `key` is present, otherwise
append the new pair at the end (Python dict insertion-order semantics). -/
def dictSet {α : Type} : Dict α → String → α → Dict α
  | [], key, v => [(key, v)]
  | (k, w) :: rest, key, v =>
      if k = key then (k, v) :: rest else (k, w) :: dictSet rest key v

/-- Head of Python's `s.rsplit("\n", maxsplit=1)`: the characters strictly
before the last newline, or the whole list when there is no newline. -/
def rsplit1Head : List Char → List Char
  | [] => []
  | c :: rest =>
      if c = '\n' ∧ '\n' ∉ rest then [] else c :: rsplit1Head rest

/-- `header.rsplit("\n", maxsplit=1)[0]` on strings. -/
def rsplitHeadStr (s : String) : String :=
  ⟨rsplit1Head s.data⟩

/-- Split a character list at every occurrence of `sep` (Python `str.split`:
`n` separators yield `n + 1` pieces, empty pieces included). -/
def splitOnChar (sep : Char) : List Char → List (List Char)
  | [] => [[]]
  | c :: rest =>
      if c = sep then [] :: splitOnChar sep rest
      else
        match splitOnChar sep rest with
        | [] => [[c]]
        | h :: t => (c :: h) :: t

/-- Join pieces with a newline between them (inverse of `splitOnChar '\n'`). -/
def joinNl : List (List Char) → List Char
  | [] => []
  | [l] => l
  | l :: ls => l ++ '\n' :: joinNl ls

/-- `pathlib.Path(p).name`: the last component of the `/`-separated path,
ignoring empty components and `"."` components; `""` when none remains. -/
def pathName (p : String) : String :=
  ⟨(((splitOnChar '/' p.data).filter
      (fun c => ¬(c = [] ∨ c = ['.']))).getLast?).getD []⟩

/-- A configuration mapping (metadata's `"configuration"` value; arbitrary
structured data, modelled as a string-to-string mapping; `{}` is `[]`). -/
abbrev Config := Dict String

/-- The two Qt signals `start()` emits. -/
inductive Signal : Type
  | update_plots : Signal
  | started : Signal
  deriving DecidableEq, Repr

/-- Result of a successful `load_datalogger_file(path)` call: header string,
data mapping (variable name to sample sequence) and metadata mapping. -/
structure LoadResult : Type where
  header : String
  data : Dict (List ℚ)
  meta : Dict Config
  deriving DecidableEq, Repr

/-- Controller state: the `DataLoggerViewer` fields touched by `start()`,
with the widgets' displayed contents and a trace of emitted signals. -/
structure State : Type where
  last_path : String
  lists : Dict (List ℚ)
  «variables» : List String
  units : Dict String
  current_units : Dict String
  leHeader : String
  configuration : Config
  leSavedName : String
  lbCount : String
  emitted : List Signal
  deriving DecidableEq, Repr

/-- The data-point count label text, `f"Data points: {length}"`. -/
def countText (n : Nat) : String :=
  "Data points: " ++ toString n

/-- Modelled from the spec: `DataLoggerBase.set_configuration` is not under
`src/`; per the spec it restores the given configuration mapping verbatim
into the viewer's configuration display state. -/
def set_configuration (s : State) (c : Config) : State :=
  { s with configuration := c }

/-- `start()` from the `last_path` assignment up to the signal emissions:
store the loaded data, display the header without its last line, restore the
configuration, derive `time_h` when `time` is present and `time_h` absent,
publish the units, display the file's base name and emit both signals. -/
def preCount (file_name : String) (load : LoadResult) (s : State) : State :=
  let s4 : State :=
    set_configuration
      { s with
          last_path := file_name,
          lists := load.data,
          leHeader := rsplitHeadStr load.header }
      (dictGetD load.meta "configuration" [])
  let s5 : State :=
    if "time" ∈ dictKeys load.data ∧ "time_h" ∉ dictKeys load.data then
      { s4 with
          lists := dictSet s4.lists "time_h"
            ((dictGetD load.data "time" []).map (fun x => x / 3600)),
          «variables» := s4.«variables» ++ ["time_h"],
          units := dictSet s4.units "time_h" "h" }
    else s4
  { s5 with
      current_units := s5.units,
      leSavedName := pathName file_name,
      emitted := s5.emitted ++ [Signal.update_plots, Signal.started] }

/-- The final block of `start()`: `length = len(self.lists[list(self.lists).pop()])`
inside `try`/`except IndexError`; on the empty mapping the `IndexError` is
swallowed and the label is left alone. -/
def countStep (s : State) : State :=
  match (dictKeys s.lists).getLast? with
  | none => s
  | some k => { s with lbCount := countText (dictGetD s.lists k []).length }

/-- The `start()` slot on a successful load: an empty dialog result is the
user cancelling and returns immediately; otherwise the loaded file is
post-processed and displayed. -/
def start (file_name : String) (load : LoadResult) (s : State) : State :=
  if file_name = "" then s
  else countStep (preCount file_name load s)

/-- The observable prefix of `start()` when `load_datalogger_file` raises:
`self.last_path = file_name` has already executed when the exception
propagates, and nothing after the loader call runs. -/
def startLoadError (file_name : String) (s : State) : State :=
  if file_name = "" then s
  else { s with last_path := file_name }

/-- The spec's description of the displayed header, taken literally: split the
header into lines, drop the final line, and rejoin the remaining lines with
newlines. Stated for comparison with the source's `rsplitHeadStr`. -/
def headerAllButLastLine (h : String) : String :=
  ⟨joinNl ((splitOnChar '\n' h.data).dropLast)⟩

/-! ### Dictionary lemmas -/

theorem mem_dictKeys_of_lookup {α : Type} {m : Dict α} {k : String} {v : α}
    (h : dictLookup m k = some v) : k ∈ dictKeys m := by
  induction m with
  | nil => simp [dictLookup] at h
  | cons p rest ih =>
    obtain ⟨k', v'⟩ := p
    by_cases hk : k' = k
    · subst hk; simp [dictKeys]
    · simp only [dictLookup, if_neg hk] at h
      have hmem := ih h
      simp only [dictKeys, List.map_cons, List.mem_cons]
      exact Or.inr hmem

theorem dictLookup_eq_none_of_not_mem {α : Type} {m : Dict α} {k : String}
    (h : k ∉ dictKeys m) : dictLookup m k = none := by
  induction m with
  | nil => rfl
  | cons p rest ih =>
    obtain ⟨k', v'⟩ := p
    simp only [dictKeys, List.map_cons, List.mem_cons] at h
    push_neg at h
    rw [dictLookup, if_neg (fun hx => h.1 hx.symm)]
    exact ih h.2

theorem dictLookup_mem_isSome {α : Type} {m : Dict α} {k : String}
    (h : k ∈ dictKeys m) : ∃ v, dictLookup m k = some v := by
  induction m with
  | nil => simp [dictKeys] at h
  | cons p rest ih =>
    obtain ⟨k', v'⟩ := p
    by_cases hk : k' = k
    · exact ⟨v', by simp [dictLookup, hk]⟩
    · simp only [dictKeys, List.map_cons, List.mem_cons] at h
      rcases h with h | h
      · exact absurd h.symm hk
      · obtain ⟨v, hv⟩ := ih h
        exact ⟨v, by simp [dictLookup, hk, hv]⟩

theorem dictKeys_dictSet_of_not_mem {α : Type} {m : Dict α} {k : String}
    (v : α) (h : k ∉ dictKeys m) :
    dictKeys (dictSet m k v) = dictKeys m ++ [k] := by
  induction m with
  | nil => rfl
  | cons p rest ih =>
    obtain ⟨k', v'⟩ := p
    simp only [dictKeys, List.map_cons, List.mem_cons] at h
    push_neg at h
    have ih' := ih h.2
    simp only [dictKeys, List.map_cons] at ih' ⊢
    rw [dictSet, if_neg (fun hx => h.1 hx.symm)]
    simp [ih']

theorem dictLookup_dictSet_self {α : Type} (m : Dict α) (k : String) (v : α) :
    dictLookup (dictSet m k v) k = some v := by
  induction m with
  | nil => simp [dictSet, dictLookup]
  | cons p rest ih =>
    obtain ⟨k', v'⟩ := p
    by_cases hk : k' = k
    · simp [dictSet, hk, dictLookup]
    · simp [dictSet, hk, dictLookup, ih]

/-! ### String-splitting lemmas -/

theorem rsplit1Head_of_not_mem {l : List Char} (h : '\n' ∉ l) :
    rsplit1Head l = l := by
  induction l with
  | nil => rfl
  | cons c rest ih =>
    simp only [List.mem_cons] at h
    push_neg at h
    have hc : ¬(c = '\n' ∧ '\n' ∉ rest) := fun hx => h.1 hx.1.symm
    simp [rsplit1Head, hc, ih h.2]

theorem splitOnChar_ne_nil (sep : Char) (l : List Char) :
    splitOnChar sep l ≠ [] := by
  induction l with
  | nil => simp [splitOnChar]
  | cons c rest ih =>
    by_cases hc : c = sep
    · simp [splitOnChar, hc]
    · simp only [splitOnChar, if_neg hc]
      cases hs : splitOnChar sep rest with
      | nil => simp
      | cons h t => simp

theorem splitOnChar_of_not_mem {sep : Char} {l : List Char} (h : sep ∉ l) :
    splitOnChar sep l = [l] := by
  induction l with
  | nil => rfl
  | cons c rest ih =>
    simp only [List.mem_cons] at h
    push_neg at h
    have hc : ¬c = sep := fun hx => h.1 hx.symm
    simp [splitOnChar, hc, ih h.2]

theorem two_le_length_splitOnChar {sep : Char} {l : List Char}
    (h : sep ∈ l) : 2 ≤ (splitOnChar sep l).length := by
  induction l with
  | nil => simp at h
  | cons c rest ih =>
    by_cases hc : c = sep
    · simp only [splitOnChar, if_pos hc, List.length_cons]
      have h0 : splitOnChar sep rest ≠ [] := splitOnChar_ne_nil sep rest
      have : 0 < (splitOnChar sep rest).length := List.length_pos.mpr h0
      omega
    · have hr : sep ∈ rest := by
        rcases List.mem_cons.mp h with h1 | h1
        · exact absurd h1.symm hc
        · exact h1
      simp only [splitOnChar, if_neg hc]
      cases hs : splitOnChar sep rest with
      | nil => exact absurd hs (splitOnChar_ne_nil sep rest)
      | cons hd t =>
        have := ih hr
        rw [hs] at this
        simpa using this

theorem not_mem_of_mem_splitOnChar {sep : Char} {l : List Char} {c : List Char}
    (h : c ∈ splitOnChar sep l) : sep ∉ c := by
  induction l generalizing c with
  | nil =>
    simp only [splitOnChar, List.mem_singleton] at h
    subst h; simp
  | cons a rest ih =>
    by_cases ha : a = sep
    · simp only [splitOnChar, if_pos ha, List.mem_cons] at h
      rcases h with h | h
      · subst h; simp
      · exact ih h
    · simp only [splitOnChar, if_neg ha] at h
      cases hs : splitOnChar sep rest with
      | nil => exact absurd hs (splitOnChar_ne_nil sep rest)
      | cons hd t =>
        rw [hs] at h
        rcases List.mem_cons.mp h with h1 | h1
        · subst h1
          intro hmem
          rcases List.mem_cons.mp hmem with h2 | h2
          · exact ha h2.symm
          · exact ih (hs ▸ List.mem_cons_self hd t) h2
        · exact ih (hs ▸ List.mem_cons_of_mem hd h1)

theorem joinNl_cons_cons (c : Char) (h : List Char) (ls : List (List Char)) :
    joinNl ((c :: h) :: ls) = c :: joinNl (h :: ls) := by
  cases ls with
  | nil => rfl
  | cons l' ls' => rfl

theorem rsplit1Head_eq_dropLast_lines {l : List Char} (h : '\n' ∈ l) :
    rsplit1Head l = joinNl ((splitOnChar '\n' l).dropLast) := by
  induction l with
  | nil => simp at h
  | cons c rest ih =>
    by_cases hc : c = '\n' ∧ '\n' ∉ rest
    · obtain ⟨hc1, hc2⟩ := hc
      subst hc1
      rw [rsplit1Head, if_pos ⟨rfl, hc2⟩]
      rw [splitOnChar, if_pos rfl, splitOnChar_of_not_mem hc2]
      rfl
    · have hrest : '\n' ∈ rest := by
        by_cases hcn : c = '\n'
        · by_cases hr : '\n' ∈ rest
          · exact hr
          · exact absurd ⟨hcn, hr⟩ hc
        · rcases List.mem_cons.mp h with h1 | h1
          · exact absurd h1.symm hcn
          · exact h1
      have hlen := two_le_length_splitOnChar hrest
      rw [rsplit1Head, if_neg hc, ih hrest]
      by_cases hcn : c = '\n'
      · subst hcn
        rw [splitOnChar, if_pos rfl]
        cases hs : splitOnChar '\n' rest with
        | nil => exact absurd hs (splitOnChar_ne_nil _ rest)
        | cons hd t =>
          have ht : t ≠ [] := by
            intro hx; subst hx; rw [hs] at hlen; simp at hlen
          rw [List.dropLast_cons₂, List.dropLast_cons_of_ne_nil ht]
          rfl
      · rw [splitOnChar, if_neg hcn]
        cases hs : splitOnChar '\n' rest with
        | nil => exact absurd hs (splitOnChar_ne_nil _ rest)
        | cons hd t =>
          have ht : t ≠ [] := by
            intro hx; subst hx; rw [hs] at hlen; simp at hlen
          show c :: joinNl ((hd :: t).dropLast) = joinNl (((c :: hd) :: t).dropLast)
          rw [List.dropLast_cons_of_ne_nil ht, List.dropLast_cons_of_ne_nil ht,
            joinNl_cons_cons]

/-! ### Projection lemmas for the `start()` pipeline -/

theorem countStep_lists (s : State) : (countStep s).lists = s.lists := by
  unfold countStep; split <;> rfl

theorem countStep_variables (s : State) :
    (countStep s).«variables» = s.«variables» := by
  unfold countStep; split <;> rfl

theorem countStep_units (s : State) : (countStep s).units = s.units := by
  unfold countStep; split <;> rfl

theorem countStep_current_units (s : State) :
    (countStep s).current_units = s.current_units := by
  unfold countStep; split <;> rfl

theorem countStep_leHeader (s : State) : (countStep s).leHeader = s.leHeader := by
  unfold countStep; split <;> rfl

theorem countStep_configuration (s : State) :
    (countStep s).configuration = s.configuration := by
  unfold countStep; split <;> rfl

theorem countStep_leSavedName (s : State) :
    (countStep s).leSavedName = s.leSavedName := by
  unfold countStep; split <;> rfl

/-- Condition guarding the `time_h` derivation in `start()`. -/
def timeHCond (load : LoadResult) : Prop :=
  "time" ∈ dictKeys load.data ∧ "time_h" ∉ dictKeys load.data

instance (load : LoadResult) : Decidable (timeHCond load) := by
  unfold timeHCond; infer_instance

theorem preCount_lbCount (f : String) (load : LoadResult) (s : State) :
    (preCount f load s).lbCount = s.lbCount := by
  simp only [preCount, set_configuration]; split <;> rfl

theorem preCount_leHeader (f : String) (load : LoadResult) (s : State) :
    (preCount f load s).leHeader = rsplitHeadStr load.header := by
  simp only [preCount, set_configuration]; split <;> rfl

theorem preCount_configuration (f : String) (load : LoadResult) (s : State) :
    (preCount f load s).configuration = dictGetD load.meta "configuration" [] := by
  simp only [preCount, set_configuration]; split <;> rfl

theorem preCount_leSavedName (f : String) (load : LoadResult) (s : State) :
    (preCount f load s).leSavedName = pathName f := by
  simp only [preCount, set_configuration]

theorem preCount_lists (f : String) (load : LoadResult) (s : State) :
    (preCount f load s).lists =
      if timeHCond load then
        dictSet load.data "time_h"
          ((dictGetD load.data "time" []).map (fun x => x / 3600))
      else load.data := by
  simp only [preCount, set_configuration, timeHCond]; split <;> rfl

theorem preCount_variables (f : String) (load : LoadResult) (s : State) :
    (preCount f load s).«variables» =
      if timeHCond load then s.«variables» ++ ["time_h"] else s.«variables» := by
  simp only [preCount, set_configuration, timeHCond]; split <;> rfl

theorem preCount_units (f : String) (load : LoadResult) (s : State) :
    (preCount f load s).units =
      if timeHCond load then dictSet s.units "time_h" "h" else s.units := by
  simp only [preCount, set_configuration, timeHCond]; split <;> rfl

theorem preCount_current_units (f : String) (load : LoadResult) (s : State) :
    (preCount f load s).current_units = (preCount f load s).units := by
  simp only [preCount, set_configuration]

theorem start_eq_countStep (f : String) (load : LoadResult) (s : State)
    (hf : f ≠ "") : start f load s = countStep (preCount f load s) := by
  simp [start, hf]

/-! ### Claim theorems -/

/-- Claim C5: when the file dialog returns an empty selection (user cancel),
`start()` is a no-op: the whole controller state — Last Path, samples mapping,
displayed header, labels, units, configuration — is unchanged and no signal
is appended to the emission trace. -/
theorem start_cancel_noop (load : LoadResult) (s : State) :
    start "" load s = s := by
  simp [start]

/-- Claim C3, counterexample: on a load failure the claim says Last Path is
unchanged, but `self.last_path = file_name` runs before the loader call, so
a state that had Last Path `/old.json` ends up with `/new.json`. -/
theorem startLoadError_changes_last_path :
    (startLoadError "/new.json"
        (State.mk "/old.json" [] [] [] [] "" [] "" "" [])).last_path ≠
      "/old.json" := by
  decide

/-- Claim C3, amended: when the File Loader raises, everything except Last
Path is unchanged; Last Path has already been updated to the selected file
because its assignment precedes the loader call. -/
theorem startLoadError_updates_only_last_path (f : String) (s : State)
    (hf : f ≠ "") : startLoadError f s = { s with last_path := f } := by
  simp [startLoadError, hf]

/-- Witness for the amended claim C3 at a concrete input. -/
theorem startLoadError_updates_only_last_path_witness :
    ("/new.json" : String) ≠ "" ∧
    startLoadError "/new.json" (State.mk "/old.json" [] [] [] [] "" [] "" "" []) =
      { State.mk "/old.json" [] [] [] [] "" [] "" "" [] with
          last_path := "/new.json" } :=
  ⟨by decide, startLoadError_updates_only_last_path "/new.json" _ (by decide)⟩

/-- Claim C7: after a successful load the restored configuration is the empty
mapping when metadata has no `"configuration"` key, and otherwise exactly the
value stored under that key. -/
theorem start_restores_configuration (f : String) (load : LoadResult)
    (s : State) (hf : f ≠ "") :
    ("configuration" ∉ dictKeys load.meta →
        (start f load s).configuration = []) ∧
    ("configuration" ∈ dictKeys load.meta →
        dictLookup load.meta "configuration" =
          some (start f load s).configuration) := by
  have hc : (start f load s).configuration =
      dictGetD load.meta "configuration" [] := by
    rw [start_eq_countStep f load s hf, countStep_configuration,
      preCount_configuration]
  constructor
  · intro h1
    rw [hc]
    unfold dictGetD
    rw [dictLookup_eq_none_of_not_mem h1]
    rfl
  · intro h2
    obtain ⟨v, hv⟩ := dictLookup_mem_isSome h2
    rw [hv, hc]
    unfold dictGetD
    rw [hv]
    rfl

/-- Witness for claim C7 at a concrete input. -/
theorem start_restores_configuration_witness :
    ("/run.json" : String) ≠ "" ∧
    (("configuration" ∉
        dictKeys (LoadResult.mk "h\nx" [] [("configuration", [("a", "b")])]).meta →
        (start "/run.json" (LoadResult.mk "h\nx" [] [("configuration", [("a", "b")])])
            (State.mk "" [] [] [] [] "" [] "" "" [])).configuration = []) ∧
      ("configuration" ∈
        dictKeys (LoadResult.mk "h\nx" [] [("configuration", [("a", "b")])]).meta →
        dictLookup (LoadResult.mk "h\nx" [] [("configuration", [("a", "b")])]).meta
            "configuration" =
          some (start "/run.json"
              (LoadResult.mk "h\nx" [] [("configuration", [("a", "b")])])
              (State.mk "" [] [] [] [] "" [] "" "" [])).configuration)) :=
  ⟨by decide, start_restores_configuration "/run.json" _ _ (by decide)⟩

/-- Claim C8: after a successful load the displayed saved-name label is the
base name of the selected path — the last path component, which contains no
directory separator. -/
theorem start_saved_name_basename (f : String) (load : LoadResult) (s : State)
    (hf : f ≠ "") :
    (start f load s).leSavedName = pathName f ∧ '/' ∉ (pathName f).data := by
  constructor
  · rw [start_eq_countStep f load s hf, countStep_leSavedName,
      preCount_leSavedName]
  · show '/' ∉ (((splitOnChar '/' f.data).filter
      (fun c => ¬(c = [] ∨ c = ['.']))).getLast?).getD []
    cases hl : ((splitOnChar '/' f.data).filter
        (fun c => ¬(c = [] ∨ c = ['.']))).getLast? with
    | none => simp
    | some c =>
      have hmem := List.mem_of_getLast?_eq_some hl
      have hmem' := List.mem_of_mem_filter hmem
      simpa using not_mem_of_mem_splitOnChar hmem'

/-- Witness for claim C8 at the spec's own example path. -/
theorem start_saved_name_basename_witness :
    ("/a/b/run1.json" : String) ≠ "" ∧
    ((start "/a/b/run1.json" (LoadResult.mk "h\nx" [] [])
          (State.mk "" [] [] [] [] "" [] "" "" [])).leSavedName =
        pathName "/a/b/run1.json" ∧
      '/' ∉ (pathName "/a/b/run1.json").data) ∧
    pathName "/a/b/run1.json" = "run1.json" :=
  ⟨by decide,
    start_saved_name_basename "/a/b/run1.json" _ _ (by decide),
    by decide⟩

/-- Claim C9: when the loaded header contains no newline, the displayed
header is the entire header unchanged, since splitting off the final line of
a single-line string yields the string itself. -/
theorem start_header_single_line_unchanged (f : String) (load : LoadResult)
    (s : State) (hf : f ≠ "") (hn : '\n' ∉ load.header.data) :
    (start f load s).leHeader = load.header := by
  rw [start_eq_countStep f load s hf, countStep_leHeader, preCount_leHeader]
  unfold rsplitHeadStr
  rw [rsplit1Head_of_not_mem hn]

/-- Witness for claim C9 at a concrete input. -/
theorem start_header_single_line_unchanged_witness :
    ("/run.json" : String) ≠ "" ∧ '\n' ∉ ("abc" : String).data ∧
    (start "/run.json" (LoadResult.mk "abc" [] [])
        (State.mk "" [] [] [] [] "" [] "" "" [])).leHeader = "abc" :=
  ⟨by decide, by decide,
    start_header_single_line_unchanged "/run.json" _ _ (by decide) (by decide)⟩

/-- Claim C6, counterexample: for the single-line header `"abc"` the code
displays `"abc"` (Python's `rsplit` returns the whole string when the
separator is absent), while removing the final line would display `""`. -/
theorem start_header_single_line_diverges :
    (start "/f.json" (LoadResult.mk "abc" [] [])
        (State.mk "" [] [] [] [] "" [] "" "" [])).leHeader ≠
      headerAllButLastLine "abc" := by
  decide

/-- Claim C6, amended: for every successful load whose header contains at
least one newline, the displayed header equals the header with its final line
removed; a newline-free header is displayed unchanged. -/
theorem start_header_drops_final_line (f : String) (load : LoadResult)
    (s : State) (hf : f ≠ "") (hn : '\n' ∈ load.header.data) :
    (start f load s).leHeader = headerAllButLastLine load.header := by
  rw [start_eq_countStep f load s hf, countStep_leHeader, preCount_leHeader]
  unfold rsplitHeadStr headerAllButLastLine
  rw [rsplit1Head_eq_dropLast_lines hn]

/-- Witness for the amended claim C6 at the spec's own example header. -/
theorem start_header_drops_final_line_witness :
    ("/f.json" : String) ≠ "" ∧ '\n' ∈ ("A\nB\nC" : String).data ∧
    (start "/f.json" (LoadResult.mk "A\nB\nC" [] [])
        (State.mk "" [] [] [] [] "" [] "" "" [])).leHeader =
      headerAllButLastLine "A\nB\nC" ∧
    headerAllButLastLine "A\nB\nC" = "A\nB" :=
  ⟨by decide, by decide,
    start_header_drops_final_line "/f.json" _ _ (by decide) (by decide),
    by decide⟩

/-- Claim C1: when the loaded data has a `"time"` sequence and no `"time_h"`
key, after `start()` the variable set contains `"time_h"`, its samples are
the `"time"` samples divided by 3600, and the units map it to `"h"` (both in
the stored units and the published current units). -/
theorem start_derives_time_h (f : String) (load : LoadResult) (s : State)
    (ts : List ℚ) (hf : f ≠ "")
    (ht : dictLookup load.data "time" = some ts)
    (hth : "time_h" ∉ dictKeys load.data) :
    "time_h" ∈ dictKeys (start f load s).lists ∧
    "time_h" ∈ (start f load s).«variables» ∧
    dictLookup (start f load s).lists "time_h" =
      some (ts.map (fun x => x / 3600)) ∧
    dictLookup (start f load s).units "time_h" = some "h" ∧
    dictLookup (start f load s).current_units "time_h" = some "h" := by
  have hcond : timeHCond load := ⟨mem_dictKeys_of_lookup ht, hth⟩
  have hts : dictGetD load.data "time" [] = ts := by
    unfold dictGetD; rw [ht]; rfl
  have hlists : (start f load s).lists =
      dictSet load.data "time_h" (ts.map (fun x => x / 3600)) := by
    rw [start_eq_countStep f load s hf, countStep_lists, preCount_lists,
      if_pos hcond, hts]
  have hunits : (start f load s).units = dictSet s.units "time_h" "h" := by
    rw [start_eq_countStep f load s hf, countStep_units, preCount_units,
      if_pos hcond]
  have hcu : (start f load s).current_units = (start f load s).units := by
    rw [start_eq_countStep f load s hf, countStep_current_units,
      countStep_units, preCount_current_units]
  refine ⟨?_, ?_, ?_, ?_, ?_⟩
  · rw [hlists, dictKeys_dictSet_of_not_mem _ hth]
    simp
  · rw [start_eq_countStep f load s hf, countStep_variables,
      preCount_variables, if_pos hcond]
    simp
  · rw [hlists, dictLookup_dictSet_self]
  · rw [hunits, dictLookup_dictSet_self]
  · rw [hcu, hunits, dictLookup_dictSet_self]

/-- Witness for claim C1 at a concrete input. -/
theorem start_derives_time_h_witness :
    ("/t.json" : String) ≠ "" ∧
    dictLookup (LoadResult.mk "h\nx" [("time", [3600, 7200])] []).data "time" =
      some [3600, 7200] ∧
    "time_h" ∉ dictKeys (LoadResult.mk "h\nx" [("time", [3600, 7200])] []).data ∧
    ("time_h" ∈ dictKeys (start "/t.json"
        (LoadResult.mk "h\nx" [("time", [3600, 7200])] [])
        (State.mk "" [] [] [] [] "" [] "" "" [])).lists ∧
      "time_h" ∈ (start "/t.json"
        (LoadResult.mk "h\nx" [("time", [3600, 7200])] [])
        (State.mk "" [] [] [] [] "" [] "" "" [])).«variables» ∧
      dictLookup (start "/t.json"
          (LoadResult.mk "h\nx" [("time", [3600, 7200])] [])
          (State.mk "" [] [] [] [] "" [] "" "" [])).lists "time_h" =
        some (([3600, 7200] : List ℚ).map (fun x => x / 3600)) ∧
      dictLookup (start "/t.json"
          (LoadResult.mk "h\nx" [("time", [3600, 7200])] [])
          (State.mk "" [] [] [] [] "" [] "" "" [])).units "time_h" = some "h" ∧
      dictLookup (start "/t.json"
          (LoadResult.mk "h\nx" [("time", [3600, 7200])] [])
          (State.mk "" [] [] [] [] "" [] "" "" [])).current_units "time_h" =
        some "h") :=
  ⟨by decide, by decide, by decide,
    start_derives_time_h "/t.json" _ _ [3600, 7200]
      (by decide) (by decide) (by decide)⟩

/-- Claim C4: the `time_h` derivation happens exactly under its guard — when
`"time_h"` is already a data key the samples mapping is stored unchanged and
`"time_h"` occurs exactly once among its keys, and when `"time"` is absent
the samples mapping is stored unchanged and no `"time_h"` key is added. -/
theorem start_time_h_guard (f : String) (load : LoadResult) (s : State)
    (hf : f ≠ "") :
    ("time_h" ∈ dictKeys load.data → (start f load s).lists = load.data) ∧
    ("time_h" ∈ dictKeys load.data → (dictKeys load.data).Nodup →
        (dictKeys (start f load s).lists).count "time_h" = 1) ∧
    ("time" ∉ dictKeys load.data → (start f load s).lists = load.data) ∧
    ("time" ∉ dictKeys load.data → "time_h" ∉ dictKeys load.data →
        "time_h" ∉ dictKeys (start f load s).lists) := by
  have hbase : ∀ _ : ¬timeHCond load, (start f load s).lists = load.data := by
    intro hnc
    rw [start_eq_countStep f load s hf, countStep_lists, preCount_lists,
      if_neg hnc]
  refine ⟨?_, ?_, ?_, ?_⟩
  · intro h1
    exact hbase (fun hx => hx.2 h1)
  · intro h1 h2
    rw [hbase (fun hx => hx.2 h1)]
    exact List.count_eq_one_of_mem h2 h1
  · intro h1
    exact hbase (fun hx => h1 hx.1)
  · intro h1 h2
    rw [hbase (fun hx => h1 hx.1)]
    exact h2

/-- Witness for claim C4 at a concrete input whose data already has
`"time_h"`. -/
theorem start_time_h_guard_witness :
    ("/g.json" : String) ≠ "" ∧
    (("time_h" ∈
        dictKeys (LoadResult.mk "h\nx" [("time", [60]), ("time_h", [2])] []).data →
        (start "/g.json" (LoadResult.mk "h\nx" [("time", [60]), ("time_h", [2])] [])
            (State.mk "" [] [] [] [] "" [] "" "" [])).lists =
          (LoadResult.mk "h\nx" [("time", [60]), ("time_h", [2])] []).data) ∧
      ("time_h" ∈
        dictKeys (LoadResult.mk "h\nx" [("time", [60]), ("time_h", [2])] []).data →
        (dictKeys (LoadResult.mk "h\nx" [("time", [60]), ("time_h", [2])] []).data).Nodup →
        (dictKeys (start "/g.json"
            (LoadResult.mk "h\nx" [("time", [60]), ("time_h", [2])] [])
            (State.mk "" [] [] [] [] "" [] "" "" [])).lists).count "time_h" = 1) ∧
      ("time" ∉
        dictKeys (LoadResult.mk "h\nx" [("time", [60]), ("time_h", [2])] []).data →
        (start "/g.json" (LoadResult.mk "h\nx" [("time", [60]), ("time_h", [2])] [])
            (State.mk "" [] [] [] [] "" [] "" "" [])).lists =
          (LoadResult.mk "h\nx" [("time", [60]), ("time_h", [2])] []).data) ∧
      ("time" ∉
        dictKeys (LoadResult.mk "h\nx" [("time", [60]), ("time_h", [2])] []).data →
        "time_h" ∉
          dictKeys (LoadResult.mk "h\nx" [("time", [60]), ("time_h", [2])] []).data →
        "time_h" ∉
          dictKeys (start "/g.json"
            (LoadResult.mk "h\nx" [("time", [60]), ("time_h", [2])] [])
            (State.mk "" [] [] [] [] "" [] "" "" [])).lists)) :=
  ⟨by decide, start_time_h_guard "/g.json" _ _ (by decide)⟩

/-- Claim C2: after a successful load the count label shows the length of the
sample sequence stored under the last key of the samples mapping, and when
the mapping is empty the label is left exactly as it was before the call
(the `IndexError` is caught, so the embedding stays total). -/
theorem start_count_display (f : String) (load : LoadResult) (s : State)
    (hf : f ≠ "") :
    (start f load s).lbCount =
      if dictKeys (start f load s).lists = [] then s.lbCount
      else
        countText (dictGetD (start f load s).lists
          (((dictKeys (start f load s).lists).getLast?).getD "") []).length := by
  rw [start_eq_countStep f load s hf, countStep_lists]
  by_cases hnil : dictKeys (preCount f load s).lists = []
  · simp [countStep, hnil, preCount_lbCount]
  · obtain ⟨k, hk⟩ : ∃ k, (dictKeys (preCount f load s).lists).getLast? = some k := by
      cases hc : (dictKeys (preCount f load s).lists).getLast? with
      | none => exact absurd (List.getLast?_eq_none_iff.mp hc) hnil
      | some k => exact ⟨k, rfl⟩
    simp [countStep, hk, if_neg hnil]

/-- Witness for claim C2 at a concrete input. -/
theorem start_count_display_witness :
    ("/c.json" : String) ≠ "" ∧
    (start "/c.json" (LoadResult.mk "h\nx" [("a", [1, 2, 3])] [])
        (State.mk "" [] [] [] [] "" [] "" "" [])).lbCount =
      (if dictKeys (start "/c.json" (LoadResult.mk "h\nx" [("a", [1, 2, 3])] [])
          (State.mk "" [] [] [] [] "" [] "" "" [])).lists = [] then
        (State.mk "" [] [] [] [] "" [] "" "" [] : State).lbCount
      else
        countText (dictGetD (start "/c.json"
            (LoadResult.mk "h\nx" [("a", [1, 2, 3])] [])
            (State.mk "" [] [] [] [] "" [] "" "" [])).lists
          (((dictKeys (start "/c.json" (LoadResult.mk "h\nx" [("a", [1, 2, 3])] [])
              (State.mk "" [] [] [] [] "" [] "" "" [])).lists).getLast?).getD "")
          []).length) :=
  ⟨by decide, start_count_display "/c.json" _ _ (by decide)⟩

/-- Claim C10: when the `time_h` derivation occurs, `"time_h"` is the
last-inserted key of the samples mapping, so the count label shows the length
of the derived `"time_h"` sequence, which equals the length of the loaded
`"time"` sequence. -/
theorem start_count_after_derivation (f : String) (load : LoadResult)
    (s : State) (ts : List ℚ) (hf : f ≠ "")
    (ht : dictLookup load.data "time" = some ts)
    (hth : "time_h" ∉ dictKeys load.data) :
    (dictKeys (start f load s).lists).getLast? = some "time_h" ∧
    (start f load s).lbCount =
      countText (dictGetD (start f load s).lists "time_h" []).length ∧
    (dictGetD (start f load s).lists "time_h" []).length = ts.length := by
  have hcond : timeHCond load := ⟨mem_dictKeys_of_lookup ht, hth⟩
  have hts : dictGetD load.data "time" [] = ts := by
    unfold dictGetD; rw [ht]; rfl
  have hpl : (start f load s).lists = (preCount f load s).lists := by
    rw [start_eq_countStep f load s hf, countStep_lists]
  have hlists : (start f load s).lists =
      dictSet load.data "time_h" (ts.map (fun x => x / 3600)) := by
    rw [hpl, preCount_lists, if_pos hcond, hts]
  have hkeys : dictKeys (start f load s).lists =
      dictKeys load.data ++ ["time_h"] := by
    rw [hlists, dictKeys_dictSet_of_not_mem _ hth]
  have hget : dictGetD (start f load s).lists "time_h" [] =
      ts.map (fun x => x / 3600) := by
    rw [hlists]
    unfold dictGetD
    rw [dictLookup_dictSet_self]
    rfl
  refine ⟨?_, ?_, ?_⟩
  · rw [hkeys]
    exact List.getLast?_concat _
  · have hk2 : (dictKeys (preCount f load s).lists).getLast? = some "time_h" := by
      rw [← hpl, hkeys]
      exact List.getLast?_concat _
    rw [start_eq_countStep f load s hf]
    unfold countStep
    simp only [hk2]
  · rw [hget, List.length_map]

/-- Witness for claim C10 at a concrete input. -/
theorem start_count_after_derivation_witness :
    ("/d.json" : String) ≠ "" ∧
    dictLookup (LoadResult.mk "h\nx" [("time", [3600, 7200, 10800])] []).data
        "time" = some [3600, 7200, 10800] ∧
    "time_h" ∉
      dictKeys (LoadResult.mk "h\nx" [("time", [3600, 7200, 10800])] []).data ∧
    ((dictKeys (start "/d.json"
        (LoadResult.mk "h\nx" [("time", [3600, 7200, 10800])] [])
        (State.mk "" [] [] [] [] "" [] "" "" [])).lists).getLast? =
        some "time_h" ∧
      (start "/d.json" (LoadResult.mk "h\nx" [("time", [3600, 7200, 10800])] [])
          (State.mk "" [] [] [] [] "" [] "" "" [])).lbCount =
        countText (dictGetD (start "/d.json"
            (LoadResult.mk "h\nx" [("time", [3600, 7200, 10800])] [])
            (State.mk "" [] [] [] [] "" [] "" "" [])).lists "time_h" []).length ∧
      (dictGetD (start "/d.json"
          (LoadResult.mk "h\nx" [("time", [3600, 7200, 10800])] [])
          (State.mk "" [] [] [] [] "" [] "" "" [])).lists "time_h" []).length =
        ([3600, 7200, 10800] : List ℚ).length) :=
  ⟨by decide, by decide, by decide,
    start_count_after_derivation "/d.json" _ _ [3600, 7200, 10800]
      (by decide) (by decide) (by decide)⟩

end DataLoggerViewer
